import Mathlib

/-!
# Verification of the NeoPG keyserver search/retrieval engine

Shallow embedding of the keyserver protocol engine of
`src/legacy/gnupg/g10/keyserver.cpp`: the retrieval screener
(`keyserver_retrieval_screener`), the pattern batch planner
(`keyserver_get_chunk` / `keyserver_get`), the colon-record parser
(`parse_keyrec`), the search line handler (`search_line_handler`) and the
interactive selection prompt (`show_prompt`).

Machine integers are modelled as `Nat`/`Int` with explicit reductions where
the C code performs a narrowing conversion.  C strings are modelled as
`List Char` (no interior NUL bytes are modelled).  Fallible operations
return `Option`.
-/

namespace NeopgKeyserver

/-! ## Character and string helpers (C library semantics) -/

/-- C `isspace` in the C locale: space, tab, newline, vertical tab,
form feed, carriage return. -/
def isCSpace (c : Char) : Bool :=
  c = ' ' || c = '\t' || c = '\n' || c = Char.ofNat 11 || c = Char.ofNat 12 || c = '\r'

/-- Value of a decimal digit prefix of a character list (used by `atoi` and
`sscanf "%d"`): folds leading decimal digits, stopping at the first
non-digit. -/
def digitsVal : Nat → List Char → Nat
  | acc, [] => acc
  | acc, c :: cs => if c.isDigit then digitsVal (acc * 10 + (c.toNat - 48)) cs else acc

/-- C `atoi` on a character list: skip leading whitespace, optional sign,
then the value of the leading run of decimal digits (0 if there is none).
Overflow of the C `int` is not modelled (no claim exercises it). -/
def atoiChars (s : List Char) : Int :=
  match s.dropWhile isCSpace with
  | '-' :: rest => -(digitsVal 0 rest : Int)
  | '+' :: rest => (digitsVal 0 rest : Int)
  | rest => (digitsVal 0 rest : Int)

/-- C `atoi` on a string. -/
def atoi (s : String) : Int := atoiChars s.data

/-- C `sscanf (s, "%d", &v)` returning `some v` on success: skip leading
whitespace, optional sign, and require at least one decimal digit. -/
def sscanf_int (s : List Char) : Option Int :=
  match s.dropWhile isCSpace with
  | '-' :: c :: rest => if c.isDigit then some (-(digitsVal 0 (c :: rest) : Int)) else none
  | '+' :: c :: rest => if c.isDigit then some ((digitsVal 0 (c :: rest) : Int)) else none
  | c :: rest => if c.isDigit then some ((digitsVal 0 (c :: rest) : Int)) else none
  | [] => none

/-- Value of one hexadecimal digit, `none` if the character is not a hex
digit (C `hextobyte` helper). -/
def hexDigitVal (c : Char) : Option Nat :=
  if '0' ≤ c ∧ c ≤ '9' then some (c.toNat - 48)
  else if 'A' ≤ c ∧ c ≤ 'F' then some (c.toNat - 55)
  else if 'a' ≤ c ∧ c ≤ 'f' then some (c.toNat - 87)
  else none

/-- C `hextobyte`: two hex digits to a byte value, `none` (C `-1`) if either
character is not a hex digit. -/
def hextobyte (c1 c2 : Char) : Option Nat :=
  match hexDigitVal c1, hexDigitVal c2 with
  | some h, some l => some (h * 16 + l)
  | _, _ => none

/-- Uppercase hexadecimal digit for a value in `[0, 15]` (as printed by
`bin2hex` and the `%08lX` format). -/
def hexDigitUpper (n : Nat) : Char :=
  if n < 10 then Char.ofNat (48 + n) else Char.ofNat (55 + n)

/-- Two uppercase hex digits of a byte. -/
def byteHex (b : Nat) : List Char :=
  [hexDigitUpper (b / 16 % 16), hexDigitUpper (b % 16)]

/-- Model of `bin2hex`: uppercase hex encoding of a byte sequence. -/
def bin2hex (bs : List Nat) : List Char := bs.flatMap byteHex

/-- The `%08lX` format applied to a 32-bit value: exactly eight uppercase
hex digits of `n mod 2^32` (the low eight hex digits of `n`). -/
def hex8 (n : Nat) : List Char :=
  (List.range 8).map fun i => hexDigitUpper (n / 16 ^ (7 - i) % 16)

/-- Split a character list at every character satisfying `p`, keeping empty
fields (the successive tokens produced by C `strsep`, which returns NULL
once the input is exhausted).  Always yields at least one token. -/
def splitBy (p : Char → Bool) : List Char → List (List Char)
  | [] => [[]]
  | c :: rest =>
    if p c then [] :: splitBy p rest
    else
      match splitBy p rest with
      | t :: ts => (c :: t) :: ts
      | [] => [[c]]

/-- Tokens of a colon-delimited record line (successive `gpg_strsep (&s, ":")`
calls). -/
def splitColon (s : List Char) : List (List Char) := splitBy (· = ':') s

/-- Model of `trim_trailing_ws`: drop trailing whitespace. -/
def trim_trailing_ws (s : List Char) : List Char :=
  (s.reverse.dropWhile isCSpace).reverse

/-! ## Data model: search descriptors and key packets -/

/-- Model of `KEYDB_SEARCH_DESC`: a search mode together with its payload.  Key ids
are 32-bit words (`u32 kid[0]` high, `kid[1]` low); fingerprints are byte
lists.  `substr` stands for the non-identifying free-text modes that
classification produces for arbitrary text. -/
inductive KsDesc where
  | modeNone
  | shortKid (kid1 : Nat)
  | longKid (kid0 kid1 : Nat)
  | fpr16 (fpr : List Nat)
  | fpr20 (fpr : List Nat)
  | exact (name : List Char)
  | substr (text : List Char)
  | first
  | next
deriving DecidableEq, Repr

/-- The four key-identifying modes (SHORT_KID, LONG_KID, FPR16, FPR20). -/
def KsDesc.isIdentifying : KsDesc → Bool
  | .shortKid _ => true
  | .longKid _ _ => true
  | .fpr16 _ => true
  | .fpr20 _ => true
  | _ => false

/-- Fingerprint and key id of one public key, as computed by
`fingerprint_from_pk` / `keyid_from_pk` (the computation itself is out of
scope; the packet carries its results). -/
structure PubKeyInfo where
  fpr : List Nat
  kid0 : Nat
  kid1 : Nat
deriving DecidableEq, Repr

/-- OpenPGP packets of a key block, by packet type (`PKT_*`). -/
inductive Packet where
  | publicKey (pk : PubKeyInfo)
  | publicSubkey (pk : PubKeyInfo)
  | secretKey (pk : PubKeyInfo)
  | secretSubkey (pk : PubKeyInfo)
  | userId
  | other
deriving DecidableEq, Repr

/-- Packet type test used by `find_kbnode (keyblock, PKT_SECRET_KEY)`. -/
def Packet.isSecretKey : Packet → Bool
  | .secretKey _ => true
  | _ => false

/-! ## ImportScreener: `keyserver_retrieval_screener` -/

/-- The per-descriptor comparison of the screener's inner loop
(keyserver.cpp lines 736-748): FPR20 needs `fpr_len == 20` and a 20-byte
match, FPR16 needs `fpr_len == 16` and a 16-byte match, LONG_KID compares
both key id words, SHORT_KID only the low word; any other mode carries no
key id or fingerprint and allows the import. -/
def screenerDescMatch (fpr : List Nat) (kid0 kid1 : Nat) : KsDesc → Bool
  | .fpr20 f => fpr.length == 20 && fpr == f
  | .fpr16 f => fpr.length == 16 && fpr == f
  | .longKid a b => kid0 == a && kid1 == b
  | .shortKid b => kid1 == b
  | _ => true

/-- Model of `keyserver_retrieval_screener` (keyserver.cpp lines 701-752), `true`
iff the function returns 0 (import allowed): reject if the block holds a
secret-key packet; accept if no descriptor was given; otherwise accept iff
some public key or subkey packet satisfies some descriptor. -/
def keyserver_retrieval_screener (descs : List KsDesc) (keyblock : List Packet) : Bool :=
  if keyblock.any Packet.isSecretKey then false
  else if descs.isEmpty then true
  else
    keyblock.any fun p =>
      match p with
      | .publicKey pk => descs.any (screenerDescMatch pk.fpr pk.kid0 pk.kid1)
      | .publicSubkey pk => descs.any (screenerDescMatch pk.fpr pk.kid0 pk.kid1)
      | _ => false

/-- Tiered comparison as the specification words it: Fingerprint20 an exact
20-byte fingerprint match, Fingerprint16 an exact 16-byte match, LongKeyId
equality of the full 64-bit key id, ShortKeyId equality of the low 32 bits
only; any other mode accepts any key packet. -/
def tieredMatch (d : KsDesc) (pk : PubKeyInfo) : Prop :=
  match d with
  | .fpr20 f => pk.fpr.length = 20 ∧ pk.fpr = f
  | .fpr16 f => pk.fpr.length = 16 ∧ pk.fpr = f
  | .longKid a b => pk.kid0 = a ∧ pk.kid1 = b
  | .shortKid b => pk.kid1 = b
  | _ => True

instance (d : KsDesc) (pk : PubKeyInfo) : Decidable (tieredMatch d pk) := by
  unfold tieredMatch
  cases d <;> infer_instance

lemma screenerDescMatch_iff_tieredMatch (pk : PubKeyInfo) (d : KsDesc) :
    screenerDescMatch pk.fpr pk.kid0 pk.kid1 d = true ↔ tieredMatch d pk := by
  cases d <;> simp [screenerDescMatch, tieredMatch, and_comm]

/-- A public key or subkey packet with key data `pk` occurs in the block. -/
def keyPacketIn (keyblock : List Packet) (pk : PubKeyInfo) : Prop :=
  Packet.publicKey pk ∈ keyblock ∨ Packet.publicSubkey pk ∈ keyblock

/-- C1: any bundle containing a secret-key packet is rejected, for every
requested list (including the empty one); and a secret-free bundle with an
empty requested list is accepted unconditionally. -/
theorem screener_rejects_secret :
    (∀ (descs : List KsDesc) (keyblock : List Packet),
      (∃ pk, Packet.secretKey pk ∈ keyblock) →
        keyserver_retrieval_screener descs keyblock = false) ∧
    (∀ keyblock : List Packet,
      (∀ pk, Packet.secretKey pk ∉ keyblock) →
        keyserver_retrieval_screener [] keyblock = true) := by
  constructor
  · rintro descs keyblock ⟨pk, hpk⟩
    have hsec : keyblock.any Packet.isSecretKey = true := by
      rw [List.any_eq_true]
      exact ⟨_, hpk, rfl⟩
    simp [keyserver_retrieval_screener, hsec]
  · intro keyblock h
    have hsec : keyblock.any Packet.isSecretKey = false := by
      rw [List.any_eq_false]
      intro p hp
      cases p with
      | secretKey pk => exact absurd hp (h pk)
      | _ => simp [Packet.isSecretKey]
    simp [keyserver_retrieval_screener, hsec]

/-- Witness for C1 at concrete inputs. -/
theorem screener_rejects_secret_witness :
    keyserver_retrieval_screener [] [Packet.secretKey ⟨[], 0, 0⟩] = false ∧
    keyserver_retrieval_screener [] [Packet.publicKey ⟨[], 0, 0⟩] = true := by
  constructor
  · exact screener_rejects_secret.1 [] _ ⟨⟨[], 0, 0⟩, by simp⟩
  · exact screener_rejects_secret.2 _ (by intro pk; simp)

/-- C2: for a non-empty requested list and a secret-free bundle, the
screener accepts iff some public key or subkey packet matches some
requested descriptor under the tiered comparison. -/
theorem screener_accept_iff_tiered (descs : List KsDesc) (keyblock : List Packet)
    (hne : descs ≠ []) (hns : ∀ pk, Packet.secretKey pk ∉ keyblock) :
    keyserver_retrieval_screener descs keyblock = true ↔
      ∃ pk, keyPacketIn keyblock pk ∧ ∃ d ∈ descs, tieredMatch d pk := by
  have hsec : keyblock.any Packet.isSecretKey = false := by
    rw [List.any_eq_false]
    intro p hp
    cases p with
    | secretKey pk => exact absurd hp (hns pk)
    | _ => simp [Packet.isSecretKey]
  have hdesc : descs.isEmpty = false := by
    cases descs with
    | nil => exact absurd rfl hne
    | cons d ds => rfl
  rw [keyserver_retrieval_screener]
  simp only [hsec, Bool.false_eq_true, if_false, hdesc]
  rw [List.any_eq_true]
  constructor
  · rintro ⟨p, hp, hmatch⟩
    cases p with
    | publicKey pk =>
      rw [List.any_eq_true] at hmatch
      obtain ⟨d, hd, hdm⟩ := hmatch
      exact ⟨pk, Or.inl hp, d, hd, (screenerDescMatch_iff_tieredMatch pk d).mp hdm⟩
    | publicSubkey pk =>
      rw [List.any_eq_true] at hmatch
      obtain ⟨d, hd, hdm⟩ := hmatch
      exact ⟨pk, Or.inr hp, d, hd, (screenerDescMatch_iff_tieredMatch pk d).mp hdm⟩
    | _ => simp at hmatch
  · rintro ⟨pk, hin, d, hd, hm⟩
    have hdm : screenerDescMatch pk.fpr pk.kid0 pk.kid1 d = true :=
      (screenerDescMatch_iff_tieredMatch pk d).mpr hm
    cases hin with
    | inl hp => exact ⟨_, hp, by rw [List.any_eq_true]; exact ⟨d, hd, hdm⟩⟩
    | inr hp => exact ⟨_, hp, by rw [List.any_eq_true]; exact ⟨d, hd, hdm⟩⟩

/-- Witness for C2: requesting `ShortKeyId 0x12345678` accepts a candidate
whose low key id word is `0x12345678` even though the high word differs. -/
theorem screener_accept_iff_tiered_witness :
    keyserver_retrieval_screener [KsDesc.shortKid 0x12345678]
        [Packet.publicKey ⟨[], 0xAAAAAAAA, 0x12345678⟩] = true ↔
      ∃ pk, keyPacketIn [Packet.publicKey ⟨[], 0xAAAAAAAA, 0x12345678⟩] pk ∧
        ∃ d ∈ [KsDesc.shortKid 0x12345678], tieredMatch d pk :=
  screener_accept_iff_tiered [KsDesc.shortKid 0x12345678] _
    (by simp) (by intro pk; simp)

/-! ## PatternBatchPlanner: `keyserver_get_chunk` and `keyserver_get` -/

/-- The constant `MAX_KS_GET_LINELEN`: the per-request length ceiling. -/
def MAX_KS_GET_LINELEN : Nat := 950

/-- Modes the chunk planner handles; any other mode reaching it is a `BUG()`. -/
def plannerSupported : KsDesc → Bool
  | .substr _ => false
  | .first => false
  | .next => false
  | _ => true

/-- The pattern loop of `keyserver_get_chunk` (keyserver.cpp lines
1095-1183).  `linelen` is the running line length estimate, `idx` the index
of the next descriptor in the original array, `pats` the patterns built so
far (reversed).  A mode the planner does not support is `BUG()`, modelled
as `none`.  Allocation failures are not modelled. -/
def chunkLoop (linelen idx : Nat) (pats : List (List Char)) :
    List KsDesc → Option (List (List Char) × Nat)
  | [] => some (pats.reverse, idx)
  | .fpr20 f :: rest =>
    let n := 1 + 2 + 2 * 20
    if idx ≠ 0 ∧ MAX_KS_GET_LINELEN < linelen + n then some (pats.reverse, idx)
    else chunkLoop (linelen + n) (idx + 1) (('0' :: 'x' :: bin2hex f) :: pats) rest
  | .fpr16 f :: rest =>
    let n := 1 + 2 + 2 * 20
    if idx ≠ 0 ∧ MAX_KS_GET_LINELEN < linelen + n then some (pats.reverse, idx)
    else chunkLoop (linelen + n) (idx + 1) (('0' :: 'x' :: bin2hex f) :: pats) rest
  | .longKid a b :: rest =>
    let n := 1 + 2 + 16
    if idx ≠ 0 ∧ MAX_KS_GET_LINELEN < linelen + n then some (pats.reverse, idx)
    else chunkLoop (linelen + n) (idx + 1) (('0' :: 'x' :: (hex8 a ++ hex8 b)) :: pats) rest
  | .shortKid b :: rest =>
    let n := 1 + 2 + 8
    if idx ≠ 0 ∧ MAX_KS_GET_LINELEN < linelen + n then some (pats.reverse, idx)
    else chunkLoop (linelen + n) (idx + 1) (('0' :: 'x' :: hex8 b) :: pats) rest
  | .exact name :: rest =>
    let n := 1 + 1 + name.length
    if idx ≠ 0 ∧ MAX_KS_GET_LINELEN < linelen + n then some (pats.reverse, idx)
    else chunkLoop (linelen + n) (idx + 1) (('=' :: name) :: pats) rest
  | .modeNone :: rest => chunkLoop linelen (idx + 1) pats rest
  | .substr _ :: _ => none
  | .first :: _ => none
  | .next :: _ => none

/-- Model of `keyserver_get_chunk` (keyserver.cpp lines 1066-1221), restricted to
the planning part: the encoded patterns of one batch together with the
number of input descriptors consumed (`*r_ndesc_used`).  The baseline
reservation 17 accounts for the `"KS_GET --quick --"` framing. -/
def keyserver_get_chunk (descs : List KsDesc) : Option (List (List Char) × Nat) :=
  chunkLoop 17 0 [] descs

/-- The chunk loop of `keyserver_get` (keyserver.cpp lines 1241-1249),
with the transport and import collaborators out of scope (no transport
errors): the list of successive batches with their consumed counts.
`fuel` bounds the iteration count; `keyserver_get` supplies enough. -/
def keyserver_get_aux (fuel : Nat) (descs : List KsDesc) :
    Option (List (List (List Char) × Nat)) :=
  match fuel with
  | 0 => none
  | fuel + 1 =>
    match keyserver_get_chunk descs with
    | none => none
    | some (pats, used) =>
      if descs.length ≤ used then some [(pats, used)]
      else
        match keyserver_get_aux fuel (descs.drop used) with
        | none => none
        | some rest => some ((pats, used) :: rest)

/-- Model of `keyserver_get`, planning view: all batches issued for a descriptor
sequence. -/
def keyserver_get (descs : List KsDesc) : Option (List (List (List Char) × Nat)) :=
  keyserver_get_aux (descs.length + 1) descs

/-- Per-descriptor encoded cost charged by the source (the `n` of each
branch of `keyserver_get_chunk`): both fingerprint modes are charged at
the 20-byte size, and every pattern carries one extra unit for the
separator. -/
def patternCost : KsDesc → Nat
  | .fpr20 _ => 1 + 2 + 2 * 20
  | .fpr16 _ => 1 + 2 + 2 * 20
  | .longKid _ _ => 1 + 2 + 16
  | .shortKid _ => 1 + 2 + 8
  | .exact name => 1 + 1 + name.length
  | _ => 0

/-- Encoded pattern text of one descriptor. -/
def patternText : KsDesc → List Char
  | .fpr20 f => '0' :: 'x' :: bin2hex f
  | .fpr16 f => '0' :: 'x' :: bin2hex f
  | .longKid a b => '0' :: 'x' :: (hex8 a ++ hex8 b)
  | .shortKid b => '0' :: 'x' :: hex8 b
  | .exact name => '=' :: name
  | _ => []

lemma chunkLoop_idx_bounds :
    ∀ (ds : List KsDesc) (linelen idx : Nat) (pats ps : List (List Char)) (k : Nat),
      chunkLoop linelen idx pats ds = some (ps, k) → idx ≤ k ∧ k ≤ idx + ds.length := by
  intro ds
  induction ds with
  | nil =>
    intro linelen idx pats ps k h
    rw [chunkLoop] at h
    injection h with h
    injection h with h1 h2
    omega
  | cons d rest ih =>
    intro linelen idx pats ps k h
    cases d <;> rw [chunkLoop] at h
    case modeNone =>
      have := ih _ _ _ _ _ h
      simp only [List.length_cons]
      omega
    case substr t => exact absurd h (by simp)
    case first => exact absurd h (by simp)
    case next => exact absurd h (by simp)
    all_goals
      simp only [List.length_cons]
      split at h
      · injection h with h
        injection h with h1 h2
        omega
      · have := ih _ _ _ _ _ h
        omega

lemma chunkLoop_supported_isSome :
    ∀ (ds : List KsDesc) (linelen idx : Nat) (pats : List (List Char)),
      (∀ d ∈ ds, plannerSupported d = true) →
      (chunkLoop linelen idx pats ds).isSome := by
  intro ds
  induction ds with
  | nil => intro linelen idx pats _; rw [chunkLoop]; rfl
  | cons d rest ih =>
    intro linelen idx pats h
    have hd : plannerSupported d = true := h d (by simp)
    have hrest : ∀ x ∈ rest, plannerSupported x = true := fun x hx => h x (by simp [hx])
    cases d <;> rw [chunkLoop]
    case modeNone => exact ih _ _ _ hrest
    case substr t => exact absurd hd (by simp [plannerSupported])
    case first => exact absurd hd (by simp [plannerSupported])
    case next => exact absurd hd (by simp [plannerSupported])
    all_goals
      split
      · rfl
      · exact ih _ _ _ hrest

lemma keyserver_get_chunk_pos (d : KsDesc) (rest : List KsDesc)
    (ps : List (List Char)) (k : Nat)
    (h : keyserver_get_chunk (d :: rest) = some (ps, k)) : 1 ≤ k := by
  rw [keyserver_get_chunk] at h
  cases d <;> rw [chunkLoop] at h
  case modeNone => exact (chunkLoop_idx_bounds _ _ _ _ _ _ h).1
  case substr t => exact absurd h (by simp)
  case first => exact absurd h (by simp)
  case next => exact absurd h (by simp)
  all_goals
    rw [if_neg (by simp)] at h
    exact (chunkLoop_idx_bounds _ _ _ _ _ _ h).1

lemma keyserver_get_aux_sum :
    ∀ (fuel : Nat) (ds : List KsDesc), ds.length < fuel →
      (∀ d ∈ ds, plannerSupported d = true) →
      ∃ bs, keyserver_get_aux fuel ds = some bs ∧ (bs.map Prod.snd).sum = ds.length := by
  intro fuel
  induction fuel with
  | zero => intro ds h; omega
  | succ fuel ih =>
    intro ds hlen hsup
    obtain ⟨⟨pats, used⟩, heq⟩ :=
      Option.isSome_iff_exists.mp (chunkLoop_supported_isSome ds 17 0 [] hsup)
    have hbounds := chunkLoop_idx_bounds ds 17 0 [] pats used heq
    have hchunk : keyserver_get_chunk ds = some (pats, used) := heq
    by_cases hle : ds.length ≤ used
    · refine ⟨[(pats, used)], ?_, ?_⟩
      · simp only [keyserver_get_aux, hchunk, if_pos hle]
      · simp; omega
    · have hne : ds ≠ [] := by
        intro h
        rw [h] at hle
        simp at hle
      obtain ⟨d, rest, rfl⟩ := List.exists_cons_of_ne_nil hne
      have hpos : 1 ≤ used := keyserver_get_chunk_pos d rest pats used hchunk
      have hdrop : ((d :: rest).drop used).length < fuel := by
        rw [List.length_drop]
        simp only [List.length_cons] at hlen ⊢
        omega
      have hdropsup : ∀ x ∈ (d :: rest).drop used, plannerSupported x = true :=
        fun x hx => hsup x (List.drop_subset _ _ hx)
      obtain ⟨bs, hbs, hsum⟩ := ih _ hdrop hdropsup
      refine ⟨(pats, used) :: bs, ?_, ?_⟩
      · simp only [keyserver_get_aux, hchunk, if_neg hle, hbs]
      · rw [List.length_drop] at hsum
        simp only [List.map_cons, List.sum_cons, hsum]
        simp only [List.length_cons] at hle ⊢
        omega

lemma chunkLoop_overflow :
    ∀ (ds : List KsDesc) (linelen idx : Nat) (pats : List (List Char)),
      MAX_KS_GET_LINELEN < linelen → 1 ≤ idx →
      (∀ d ∈ ds, plannerSupported d = true) →
      ∃ k, chunkLoop linelen idx pats ds = some (pats.reverse, k) ∧ idx ≤ k := by
  intro ds
  induction ds with
  | nil => intro linelen idx pats _ _ _; exact ⟨idx, by rw [chunkLoop], le_refl idx⟩
  | cons d rest ih =>
    intro linelen idx pats hover hidx hsup
    have hd : plannerSupported d = true := hsup d (by simp)
    have hrest : ∀ x ∈ rest, plannerSupported x = true := fun x hx => hsup x (by simp [hx])
    cases d <;> rw [chunkLoop]
    case modeNone =>
      obtain ⟨k, hk, hle⟩ := ih linelen (idx + 1) pats hover (by omega) hrest
      exact ⟨k, hk, by omega⟩
    case substr t => exact absurd hd (by simp [plannerSupported])
    case first => exact absurd hd (by simp [plannerSupported])
    case next => exact absurd hd (by simp [plannerSupported])
    all_goals
      split
      · exact ⟨idx, rfl, le_refl idx⟩
      · rename_i hcond
        exact absurd ⟨by omega, by omega⟩ hcond

/-- C3: for every sequence of planner-supported descriptors (`None`
allowed), the consumed counts reported by the successive chunk calls that
`keyserver_get` performs sum to the input length; and a descriptor whose
encoded cost alone exceeds the ceiling is still emitted as the sole
pattern of its own batch. -/
theorem planner_consumption :
    (∀ ds : List KsDesc, (∀ d ∈ ds, plannerSupported d = true) →
      ∃ bs, keyserver_get ds = some bs ∧ (bs.map Prod.snd).sum = ds.length) ∧
    (∀ (d : KsDesc) (rest : List KsDesc), plannerSupported d = true → d ≠ KsDesc.modeNone →
      (∀ x ∈ rest, plannerSupported x = true) → MAX_KS_GET_LINELEN < patternCost d →
      ∃ k, keyserver_get_chunk (d :: rest) = some ([patternText d], k) ∧ 1 ≤ k) := by
  constructor
  · intro ds hsup
    exact keyserver_get_aux_sum (ds.length + 1) ds (by omega) hsup
  · intro d rest hd hne hrest hcost
    cases d <;> rw [keyserver_get_chunk, chunkLoop]
    case modeNone => exact absurd rfl hne
    case substr t => exact absurd hd (by simp [plannerSupported])
    case first => exact absurd hd (by simp [plannerSupported])
    case next => exact absurd hd (by simp [plannerSupported])
    case fpr20 f =>
      rw [if_neg (by simp)]
      simp only [patternCost] at hcost
      obtain ⟨k, hk, hle⟩ := chunkLoop_overflow rest (17 + (1 + 2 + 2 * 20)) 1
        ['0' :: 'x' :: bin2hex f] (by omega) (by omega) hrest
      exact ⟨k, by rw [hk]; rfl, hle⟩
    case fpr16 f =>
      rw [if_neg (by simp)]
      simp only [patternCost] at hcost
      obtain ⟨k, hk, hle⟩ := chunkLoop_overflow rest (17 + (1 + 2 + 2 * 20)) 1
        ['0' :: 'x' :: bin2hex f] (by omega) (by omega) hrest
      exact ⟨k, by rw [hk]; rfl, hle⟩
    case longKid a b =>
      rw [if_neg (by simp)]
      simp only [patternCost] at hcost
      obtain ⟨k, hk, hle⟩ := chunkLoop_overflow rest (17 + (1 + 2 + 16)) 1
        ['0' :: 'x' :: (hex8 a ++ hex8 b)] (by omega) (by omega) hrest
      exact ⟨k, by rw [hk]; rfl, hle⟩
    case shortKid b =>
      rw [if_neg (by simp)]
      simp only [patternCost] at hcost
      obtain ⟨k, hk, hle⟩ := chunkLoop_overflow rest (17 + (1 + 2 + 8)) 1
        ['0' :: 'x' :: hex8 b] (by omega) (by omega) hrest
      exact ⟨k, by rw [hk]; rfl, hle⟩
    case exact name =>
      rw [if_neg (by simp)]
      simp only [patternCost] at hcost
      obtain ⟨k, hk, hle⟩ := chunkLoop_overflow rest (17 + (1 + 1 + name.length)) 1
        ['=' :: name] (by omega) (by omega) hrest
      exact ⟨k, by rw [hk]; rfl, hle⟩

/-- Witness for C3 at concrete inputs: a two-descriptor sequence whose
consumed counts sum to 2, and a 949-character exact-name descriptor (cost
951 > 950) returned alone in its batch. -/
theorem planner_consumption_witness :
    (∃ bs, keyserver_get [KsDesc.shortKid 1, KsDesc.modeNone] = some bs ∧
      (bs.map Prod.snd).sum = 2) ∧
    (∃ k, keyserver_get_chunk [KsDesc.exact (List.replicate 949 'a')] =
      some ([patternText (KsDesc.exact (List.replicate 949 'a'))], k) ∧ 1 ≤ k) := by
  constructor
  · exact planner_consumption.1 [KsDesc.shortKid 1, KsDesc.modeNone] (by decide)
  · exact planner_consumption.2 (KsDesc.exact (List.replicate 949 'a')) []
      (by decide) (by decide) (by simp)
      (by simp only [patternCost, MAX_KS_GET_LINELEN, List.length_replicate]; norm_num)

/-- Per-descriptor cost exactly as the specification sentence states it:
Fingerprint20/16 cost `2 + 2×length`, LongKeyId 18, ShortKeyId 10,
ExactName `1 + length`. -/
def claimCost : KsDesc → Nat
  | .fpr20 _ => 2 + 2 * 20
  | .fpr16 _ => 2 + 2 * 16
  | .longKid _ _ => 2 + 16
  | .shortKid _ => 2 + 8
  | .exact name => 1 + name.length
  | _ => 0

/-- The batch planner as the specification sentence describes it: the
claimed per-mode costs accumulate onto the baseline 17, and the batch is
closed exactly when adding the next descriptor's cost would exceed the
ceiling 950 *and the batch already contains at least one pattern*. -/
def chunkClaimLoop (linelen used : Nat) (pats : List (List Char)) :
    List KsDesc → Option (List (List Char) × Nat)
  | [] => some (pats.reverse, used)
  | .modeNone :: rest => chunkClaimLoop linelen (used + 1) pats rest
  | .substr _ :: _ => none
  | .first :: _ => none
  | .next :: _ => none
  | d :: rest =>
    if pats ≠ [] ∧ MAX_KS_GET_LINELEN < linelen + claimCost d then some (pats.reverse, used)
    else chunkClaimLoop (linelen + claimCost d) (used + 1) (patternText d :: pats) rest

/-- One batch according to the claim's cost model. -/
def chunkClaimModel (descs : List KsDesc) : Option (List (List Char) × Nat) :=
  chunkClaimLoop 17 0 [] descs

/-- C4 counterexample: for 85 ShortKeyId descriptors the code closes the
first batch after 84 of them (each short key id costs 11 units, not the
claimed 10), while the claimed cost model would consume all 85. -/
theorem planner_cost_model_cex :
    (keyserver_get_chunk (List.replicate 85 (KsDesc.shortKid 0))).map Prod.snd = some 84 ∧
    (chunkClaimModel (List.replicate 85 (KsDesc.shortKid 0))).map Prod.snd = some 85 := by
  constructor <;> rfl

/-- The batch planner as amended: the costs actually charged are
`patternCost` (3 + 2×20 for both fingerprint modes — a 16-byte fingerprint
is budgeted at the 20-byte allocation size —, 19 for LongKeyId, 11 for
ShortKeyId, 2 + length for ExactName, each including one unit for the
pattern separator), and the batch is closed exactly when at least one
earlier descriptor of the chunk has been considered (skipped `None`
descriptors included) and the running length plus the next cost would
exceed 950. -/
def chunkAmendedLoop (linelen considered : Nat) (pats : List (List Char)) :
    List KsDesc → Option (List (List Char) × Nat)
  | [] => some (pats.reverse, considered)
  | .modeNone :: rest => chunkAmendedLoop linelen (considered + 1) pats rest
  | .substr _ :: _ => none
  | .first :: _ => none
  | .next :: _ => none
  | d :: rest =>
    if considered ≠ 0 ∧ MAX_KS_GET_LINELEN < linelen + patternCost d then
      some (pats.reverse, considered)
    else chunkAmendedLoop (linelen + patternCost d) (considered + 1) (patternText d :: pats) rest

/-- One batch according to the amended cost model. -/
def chunkAmended (descs : List KsDesc) : Option (List (List Char) × Nat) :=
  chunkAmendedLoop 17 0 [] descs

lemma chunkLoop_eq_amended :
    ∀ (ds : List KsDesc) (linelen idx : Nat) (pats : List (List Char)),
      chunkLoop linelen idx pats ds = chunkAmendedLoop linelen idx pats ds := by
  intro ds
  induction ds with
  | nil => intro linelen idx pats; rfl
  | cons d rest ih =>
    intro linelen idx pats
    cases d <;>
      simp only [chunkLoop, chunkAmendedLoop, patternCost, patternText, ih]

/-- C4 as amended: the planner's chunk function agrees with the amended
cost model on every descriptor sequence. -/
theorem planner_cost_model_amended (descs : List KsDesc) :
    keyserver_get_chunk descs = chunkAmended descs :=
  chunkLoop_eq_amended descs 17 0 []

/-! ## RecordParser: `parse_keyrec` -/

/-- Value of a list of hex digits (most significant first). -/
def hexVal (cs : List Char) : Nat :=
  cs.foldl (fun a c => a * 16 + (hexDigitVal c).getD 0) 0

/-- Bytes of an even-length hex digit sequence. -/
def hexPairsToBytes : List Char → List Nat
  | c1 :: c2 :: rest =>
    ((hexDigitVal c1).getD 0 * 16 + (hexDigitVal c2).getD 0) :: hexPairsToBytes rest
  | _ => []

/-- Modelled from the spec: `classify_user_id` lives in the key-database
layer, which is not under `src/` (only its callers are).  Per the data
model and glossary of the spec (§3, Glossary), a user token is classified
into a typed search descriptor: 8 hex digits (optionally `0x`-prefixed)
give a ShortKeyId, 16 a LongKeyId (high word first), 32 or 40 hex digits a
16- or 20-byte fingerprint; other non-empty text yields a non-identifying
free-text search mode; an empty token fails to classify. -/
def classify_user_id (tok : List Char) : Option KsDesc :=
  if tok = [] then none
  else
    let hexTok := if tok.take 2 = ['0', 'x'] ∨ tok.take 2 = ['0', 'X'] then tok.drop 2 else tok
    if hexTok ≠ [] ∧ hexTok.all (fun c => (hexDigitVal c).isSome) then
      if hexTok.length = 8 then some (.shortKid (hexVal hexTok))
      else if hexTok.length = 16 then
        some (.longKid (hexVal (hexTok.take 8)) (hexVal (hexTok.drop 8)))
      else if hexTok.length = 32 then some (.fpr16 (hexPairsToBytes hexTok))
      else if hexTok.length = 40 then some (.fpr20 (hexPairsToBytes hexTok))
      else some (.substr tok)
    else some (.substr tok)

/-- A token whose classification fails or yields a non-identifying mode
(the condition of keyserver.cpp lines 352-355). -/
def classifyDead (tok : List Char) : Bool :=
  match classify_user_id tok with
  | some d => !d.isIdentifying
  | none => true

/-- Model of `struct keyrec` (keyserver.cpp lines 54-61).  The display buffer is
modelled as the list of decoded, truncated uid strings appended to it; the
source writes each of them into `uidbuf` followed by the constant
line-continuation marker `"\n\t"`.  The defaults are the `xmalloc_clear`
zero state. -/
structure Keyrec where
  desc : KsDesc := .modeNone
  createtime : Nat := 0
  expiretime : Nat := 0
  size : Int := 0
  flags : Nat := 0
  type : Nat := 0
  uids : List (List Char) := []
  lines : Nat := 0
deriving DecidableEq, Repr

/-- In-place percent-decoding of a uid field (keyserver.cpp lines 420-430):
`%xy` with two hex digits becomes the byte `xy`, `%` followed by two
characters that are not hex digits becomes `?`, and a `%` with fewer than
two following characters is copied literally. -/
def percentDecode : List Char → List Char
  | '%' :: c1 :: c2 :: rest =>
    (match hextobyte c1 c2 with
     | some b => Char.ofNat b
     | none => '?') :: percentDecode rest
  | c :: rest => c :: percentDecode rest
  | [] => []

/-- The optional trailing fields of a `pub` record after the key id
(keyserver.cpp lines 360-407): algorithm type (a C `byte`), key size,
creation time and expiration time (absent or non-positive normalized to
0; a positive expiration not after `now` forces the expired flag), and the
flag-character field.  Absence of a field stops parsing further fields. -/
def pubTail (now : Nat) (w : Keyrec) : List (List Char) → Keyrec
  | [] => w
  | t :: rest1 =>
    let w := { w with type := ((atoiChars t) % 256).toNat }
    match rest1 with
    | [] => w
    | s :: rest2 =>
      let w := { w with size := atoiChars s }
      match rest2 with
      | [] => w
      | c :: rest3 =>
        let w :=
          if atoiChars c ≤ 0 then { w with createtime := 0 }
          else { w with createtime := ((atoiChars c) % (2 ^ 32)).toNat }
        match rest3 with
        | [] => w
        | e :: rest4 =>
          let w :=
            if atoiChars e ≤ 0 then { w with expiretime := 0 }
            else
              let et := ((atoiChars e) % (2 ^ 32)).toNat
              let w := { w with expiretime := et }
              if et ≤ now then { w with flags := w.flags ||| 4 } else w
          match rest4 with
          | [] => w
          | f :: _ =>
            { w with
              flags := f.foldl (fun fl ch =>
                if ch = 'r' ∨ ch = 'R' then fl ||| 1
                else if ch = 'd' ∨ ch = 'D' then fl ||| 2
                else if ch = 'e' ∨ ch = 'E' then fl ||| 4
                else fl) w.flags }

/-- The `pub` branch after the previous record has been emitted
(keyserver.cpp lines 349-407): classify the key id token; on failure or a
non-identifying mode the record is marked dead; otherwise the record's
line count is bumped and the optional fields are parsed. -/
def pubBranch (now : Nat) (w : Keyrec) : List (List Char) → Keyrec
  | [] => w
  | kidTok :: rest =>
    match classify_user_id kidTok with
    | some d =>
      if d.isIdentifying then pubTail now { w with desc := d, lines := w.lines + 1 } rest
      else { w with desc := .modeNone }
    | none => { w with desc := .modeNone }

/-- The display-width truncation of a decoded uid (keyserver.cpp lines
440-441).  `strlen (decoded) > opt.screen_columns - 10` compares a
`size_t` with an `int`: for `cols < 10` the negative right side converts
to a huge unsigned value and the truncation never fires. -/
def uidTruncate (cols : Nat) (s : List Char) : List Char :=
  if 10 ≤ cols ∧ cols - 10 < s.length then s.take (cols - 10) else s

/-- The tag dispatch of `parse_keyrec` on the colon tokens of one line
(keyserver.cpp lines 337-450), for an in-progress record `w0`.
`utf8_to_native` is modelled as the identity (`Modelled from the spec:`
the display-charset conversion is out of scope; the claims only exercise
printable ASCII). -/
def parse_line (now cols : Nat) (w0 : Keyrec) :
    List (List Char) → Option Keyrec × Option Keyrec
  | [] => (some w0, none)
  | record :: rest =>
    if record.map Char.toLower = ['p', 'u', 'b'] then
      let emitted : Option Keyrec := if w0.desc ≠ .modeNone then some w0 else none
      let w1 : Keyrec := if w0.desc ≠ .modeNone then {} else w0
      (some (pubBranch now w1 rest), emitted)
    else if record.map Char.toLower = ['u', 'i', 'd'] ∧ w0.desc ≠ .modeNone then
      match rest with
      | [] => (some w0, none)
      | tok :: _ =>
        if tok = [] then (some w0, none)
        else
          let decoded := uidTruncate cols (percentDecode tok)
          (some { w0 with uids := w0.uids ++ [decoded], lines := w0.lines + 1 }, none)
    else (some w0, none)

/-- Model of `parse_keyrec` (keyserver.cpp lines 309-451).  `work` is the static
in-progress record (`none` models the NULL pointer), `line` the next
response line (`none` models the end-of-stream flush).  Returns the new
in-progress state and the completed record, if any.  `now` stands for
`make_timestamp ()` and `cols` for `opt.screen_columns`. -/
def parse_keyrec (now cols : Nat) (work : Option Keyrec) (line : Option (List Char)) :
    Option Keyrec × Option Keyrec :=
  match line with
  | none =>
    match work with
    | none => (none, none)
    | some w => if w.desc = .modeNone then (none, none) else (none, some w)
  | some s => parse_line now cols (work.getD {}) (splitColon (trim_trailing_ws s))

/-- C5: the documented round trip.  Feeding the `pub` line, then the `uid`
line, then the end-of-stream flush emits nothing, nothing, and then exactly
one record: LongKeyId `0x1234567812345678` (`kid = (0x12345678, 0x12345678)`),
algorithm 1, size 2048, created 1000000000, expiration absent, empty flag
set, display text `AB` (the source appends the constant marker `"\n\t"`
after each uid in `uidbuf`), accumulated over 2 display lines. -/
theorem parser_roundtrip (now cols : Nat) (h : 12 ≤ cols) :
    parse_keyrec now cols none (some "pub:1234567812345678:1:2048:1000000000:0:".data) =
      (some { desc := .longKid 0x12345678 0x12345678, createtime := 1000000000,
              expiretime := 0, size := 2048, flags := 0, type := 1,
              uids := [], lines := 1 }, none) ∧
    parse_keyrec now cols
        (some { desc := .longKid 0x12345678 0x12345678, createtime := 1000000000,
                expiretime := 0, size := 2048, flags := 0, type := 1,
                uids := [], lines := 1 })
        (some "uid:%41%42:".data) =
      (some { desc := .longKid 0x12345678 0x12345678, createtime := 1000000000,
              expiretime := 0, size := 2048, flags := 0, type := 1,
              uids := [['A', 'B']], lines := 2 }, none) ∧
    parse_keyrec now cols
        (some { desc := .longKid 0x12345678 0x12345678, createtime := 1000000000,
                expiretime := 0, size := 2048, flags := 0, type := 1,
                uids := [['A', 'B']], lines := 2 }) none =
      (none, some { desc := .longKid 0x12345678 0x12345678, createtime := 1000000000,
                    expiretime := 0, size := 2048, flags := 0, type := 1,
                    uids := [['A', 'B']], lines := 2 }) := by
  have htr : uidTruncate cols ['A', 'B'] = ['A', 'B'] := by
    unfold uidTruncate
    rw [if_neg]
    rintro ⟨h1, h2⟩
    simp only [List.length_cons, List.length_nil] at h2
    omega
  refine ⟨rfl, ?_, rfl⟩
  show (some ({ desc := .longKid 0x12345678 0x12345678, createtime := 1000000000,
                expiretime := 0, size := 2048, flags := 0, type := 1,
                uids := [uidTruncate cols ['A', 'B']], lines := 2 } : Keyrec),
        (none : Option Keyrec)) =
      (some ({ desc := .longKid 0x12345678 0x12345678, createtime := 1000000000,
               expiretime := 0, size := 2048, flags := 0, type := 1,
               uids := [['A', 'B']], lines := 2 } : Keyrec), (none : Option Keyrec))
  rw [htr]

/-- Witness for C5 at `now = 0`, `cols = 80`. -/
theorem parser_roundtrip_witness :
    parse_keyrec 0 80 none (some "pub:1234567812345678:1:2048:1000000000:0:".data) =
      (some { desc := .longKid 0x12345678 0x12345678, createtime := 1000000000,
              expiretime := 0, size := 2048, flags := 0, type := 1,
              uids := [], lines := 1 }, none) ∧
    parse_keyrec 0 80
        (some { desc := .longKid 0x12345678 0x12345678, createtime := 1000000000,
                expiretime := 0, size := 2048, flags := 0, type := 1,
                uids := [], lines := 1 })
        (some "uid:%41%42:".data) =
      (some { desc := .longKid 0x12345678 0x12345678, createtime := 1000000000,
              expiretime := 0, size := 2048, flags := 0, type := 1,
              uids := [['A', 'B']], lines := 2 }, none) ∧
    parse_keyrec 0 80
        (some { desc := .longKid 0x12345678 0x12345678, createtime := 1000000000,
                expiretime := 0, size := 2048, flags := 0, type := 1,
                uids := [['A', 'B']], lines := 2 }) none =
      (none, some { desc := .longKid 0x12345678 0x12345678, createtime := 1000000000,
                    expiretime := 0, size := 2048, flags := 0, type := 1,
                    uids := [['A', 'B']], lines := 2 }) :=
  parser_roundtrip 0 80 (by norm_num)

/-- Run the parser over a line sequence (`none` entries are flushes),
collecting every completed record in order. -/
def parseRun (now cols : Nat) (st : Option Keyrec) :
    List (Option (List Char)) → Option Keyrec × List Keyrec
  | [] => (st, [])
  | x :: xs =>
    let p1 := parse_keyrec now cols st x
    let p2 := parseRun now cols p1.1 xs
    (p2.1, p1.2.toList ++ p2.2)

/-- The first colon field of a line after trailing-whitespace trimming,
case-folded (the tag `parse_keyrec` dispatches on). -/
def lineTag (l : List Char) : List Char :=
  ((splitColon (trim_trailing_ws l)).headD []).map Char.toLower

lemma parseRun_cons (now cols : Nat) (st : Option Keyrec) (x : Option (List Char))
    (xs : List (Option (List Char))) :
    parseRun now cols st (x :: xs) =
      ((parseRun now cols (parse_keyrec now cols st x).1 xs).1,
       (parse_keyrec now cols st x).2.toList ++
         (parseRun now cols (parse_keyrec now cols st x).1 xs).2) := rfl

lemma parse_dead_pub (now cols : Nat) (l r tok : List Char) (rest : List (List Char))
    (hsplit : splitColon (trim_trailing_ws l) = r :: tok :: rest)
    (hr : r.map Char.toLower = ['p', 'u', 'b'])
    (hdead : classifyDead tok = true) :
    parse_keyrec now cols none (some l) = (some {}, none) := by
  have hstep : parse_keyrec now cols none (some l) =
      parse_line now cols {} (splitColon (trim_trailing_ws l)) := rfl
  rw [hstep, hsplit]
  simp only [parse_line]
  rw [if_pos hr]
  show (some (pubBranch now {} (tok :: rest)), (none : Option Keyrec)) = (some {}, none)
  rw [pubBranch]
  simp only [classifyDead] at hdead
  cases hcl : classify_user_id tok with
  | none => simp only [hcl]
  | some d =>
    rw [hcl] at hdead
    simp only [Bool.not_eq_eq_eq_not, Bool.not_true] at hdead
    simp only [hcl, hdead, Bool.false_eq_true, if_false]

lemma parse_dead_ignored (now cols : Nat) (l : List Char)
    (h : lineTag l ≠ ['p', 'u', 'b']) :
    parse_keyrec now cols (some {}) (some l) = (some {}, none) := by
  have hstep : parse_keyrec now cols (some {}) (some l) =
      parse_line now cols {} (splitColon (trim_trailing_ws l)) := rfl
  rw [hstep]
  cases hsp : splitColon (trim_trailing_ws l) with
  | nil => rfl
  | cons record rest =>
    have hrec : ¬(record.map Char.toLower = ['p', 'u', 'b']) := by
      rw [lineTag, hsp] at h
      simpa using h
    simp only [parse_line]
    rw [if_neg hrec, if_neg]
    rintro ⟨-, hne⟩
    exact hne rfl

/-- C6: a `pub` line whose key id token fails classification (or
classifies to a non-identifying mode) starts a dead block: the parser
emits no record for it, leaves the dead in-progress record untouched by
every following non-`pub` line (no uid text, no line count), and the
end-of-stream flush discards the dead record.  The whole trace emits no
record at all. -/
theorem dead_pub_block (now cols : Nat) (l r tok : List Char) (rest : List (List Char))
    (ls : List (List Char))
    (hsplit : splitColon (trim_trailing_ws l) = r :: tok :: rest)
    (hr : r.map Char.toLower = ['p', 'u', 'b'])
    (hdead : classifyDead tok = true)
    (hls : ∀ x ∈ ls, lineTag x ≠ ['p', 'u', 'b']) :
    parseRun now cols none (some l :: (ls.map some ++ [none])) = (none, []) ∧
    (parseRun now cols none (some l :: ls.map some)).1 = some {} := by
  have hfirst := parse_dead_pub now cols l r tok rest hsplit hr hdead
  have hmid : ∀ ms : List (List Char), (∀ x ∈ ms, lineTag x ≠ ['p', 'u', 'b']) →
      parseRun now cols (some {}) (ms.map some) = (some {}, []) := by
    intro ms
    induction ms with
    | nil => intro _; rfl
    | cons m ms ih =>
      intro hm
      have h1 := parse_dead_ignored now cols m (hm m (by simp))
      have h2 := ih (fun x hx => hm x (by simp [hx]))
      rw [List.map_cons, parseRun_cons, h1]
      show ((parseRun now cols (some {}) (ms.map some)).1,
            (parseRun now cols (some {}) (ms.map some)).2) = (some {}, [])
      rw [h2]
  have hmid2 : ∀ ms : List (List Char), (∀ x ∈ ms, lineTag x ≠ ['p', 'u', 'b']) →
      parseRun now cols (some {}) (ms.map some ++ [none]) = (none, []) := by
    intro ms
    induction ms with
    | nil => intro _; rfl
    | cons m ms ih =>
      intro hm
      have h1 := parse_dead_ignored now cols m (hm m (by simp))
      have h2 := ih (fun x hx => hm x (by simp [hx]))
      rw [List.map_cons, List.cons_append, parseRun_cons, h1]
      show ((parseRun now cols (some {}) (ms.map some ++ [none])).1,
            (parseRun now cols (some {}) (ms.map some ++ [none])).2) = (none, [])
      rw [h2]
  constructor
  · rw [parseRun_cons, hfirst]
    show ((parseRun now cols (some {}) (ls.map some ++ [none])).1,
          (parseRun now cols (some {}) (ls.map some ++ [none])).2) = (none, [])
    rw [hmid2 ls hls]
  · rw [parseRun_cons, hfirst]
    show (parseRun now cols (some {}) (ls.map some)).1 = some {}
    rw [hmid ls hls]

/-- Witness for C6: `"pub:not-a-key:"` followed by a uid line and a flush
emits nothing and keeps a dead empty record in progress. -/
theorem dead_pub_block_witness :
    parseRun 0 80 none (some "pub:not-a-key:".data ::
        ([("uid:%41%42:".data)].map some ++ [none])) = (none, []) ∧
    (parseRun 0 80 none (some "pub:not-a-key:".data ::
        [("uid:%41%42:".data)].map some)).1 = some {} :=
  dead_pub_block 0 80 "pub:not-a-key:".data ['p', 'u', 'b'] "not-a-key".data [[]]
    ["uid:%41%42:".data] (by decide) (by decide) (by decide) (by decide)

/-! ## SearchResultController: `search_line_handler`

The handler is modelled in the machine-readable configuration
(`--with-colons --batch`), in which no interactive prompt is issued; the
`info:` line logic under scrutiny does not depend on that configuration. -/

/-- Outcome of one handler invocation: 0 or `GPG_ERR_UNSUPPORTED_PROTOCOL`
(allocation failures are not modelled). -/
inductive SlhResult where
  | ok
  | unsupported
deriving DecidableEq, Repr

/-- Model of `struct search_line_handler_parm_s` (keyserver.cpp lines 64-77)
together with the static `work` record of `parse_keyrec`.  `descs` holds
the stored descriptors; `descAlloc` tracks whether the C `desc` array is
still NULL; `count` doubles as the declared key count and the array
capacity, exactly as in the source. -/
structure SLHParm where
  descs : List KsDesc := []
  count : Int := 0
  validcount : Bool := false
  nkeys : Nat := 0
  any_lines : Bool := false
  numlines : Nat := 0
  eof_seen : Bool := false
  not_found : Bool := false
  descAlloc : Bool := false
  work : Option Keyrec := none
deriving DecidableEq, Repr

/-- The zeroed parameter block (`memset (&parm, 0, sizeof parm)`). -/
def initParm : SLHParm := {}

/-- The test `ascii_strncasecmp ("info:", line, 5) == 0`. -/
def is_info_line (l : List Char) : Bool :=
  (l.take 5).map Char.toLower == ['i', 'n', 'f', 'o', ':']

/-- The `info:` branch of the handler (keyserver.cpp lines 550-578):
an unparsable version sub-field counts as version 1; a version other
than 1 aborts with `UnsupportedProtocol`; a parsed count of 0 marks
not-found, a negative one is replaced by the guess 10, a positive one is
kept and marks the count trustworthy (keyserver.cpp lines 567-574). -/
def infoCount (p : SLHParm) (tok : Option (List Char)) : SLHParm :=
  match tok with
  | some t =>
    match sscanf_int t with
    | some c =>
      if c = 0 then { p with count := 0, not_found := true }
      else if c < 0 then { p with count := 10 }
      else { p with count := c, validcount := true }
    | none => p
  | none => p

/-- The version check of the `info:` branch followed by the count
processing. -/
def slh_info (p : SLHParm) (l : List Char) : SLHParm × SlhResult :=
  let toks := splitColon (l.drop 5)
  let v : Int :=
    match sscanf_int (toks.headD []) with
    | some x => x
    | none => 1
  if v ≠ 1 then (p, .unsupported)
  else ({ infoCount p toks[1]? with any_lines := true }, .ok)

/-- Storing a completed record (keyserver.cpp lines 604-657): allocate or
grow the descriptor array (growing clears the trustworthy-count flag),
append the descriptor, account the display lines, set `any_lines`, bump
`nkeys`.  Allocation always succeeds in the model. -/
def saveKeyrec (p : SLHParm) (k : Keyrec) : SLHParm :=
  let p1 :=
    if !p.descAlloc then
      let q := if p.count < 1 then { p with count := 10, validcount := false } else p
      { q with descAlloc := true }
    else if (p.nkeys : Int) = p.count then
      { p with count := p.count + 10, validcount := false }
    else p
  { p1 with
    descs := p1.descs ++ [k.desc],
    numlines := p1.numlines + k.lines,
    any_lines := true,
    nkeys := p1.nkeys + 1 }

/-- The terminal branch after a flush that produced no record
(keyserver.cpp lines 587-599), machine-readable configuration: zero keys
mark not-found; otherwise a mismatch between produced and declared counts
clears the trustworthy-count flag (no prompt is shown). -/
def eofTerminal (p : SLHParm) : SLHParm :=
  if p.nkeys = 0 then { p with not_found := true }
  else if (p.nkeys : Int) ≠ p.count then { p with validcount := false }
  else p

/-- Model of `search_line_handler` (keyserver.cpp lines 524-665) for a data line
(`special == 0`), machine-readable configuration.  A line after EOF is
treated as EOF.  A first `info:` line gets the version/count treatment;
every other line goes to `parse_keyrec`; EOF flushes the parser, saves a
flushed record and re-runs the flush (the `goto again` loop; the second
flush finds no in-progress record and runs the terminal branch). -/
def search_line_handler (now cols : Nat) (p : SLHParm) (line : Option (List Char)) :
    SLHParm × SlhResult :=
  let line := if p.eof_seen && line.isSome then none else line
  match line with
  | some l =>
    if !p.any_lines && is_info_line l then slh_info p l
    else
      let pr := parse_keyrec now cols p.work (some l)
      let p1 := { p with work := pr.1 }
      match pr.2 with
      | none => (p1, .ok)
      | some kr => (saveKeyrec p1 kr, .ok)
  | none =>
    let p0 := { p with eof_seen := true }
    let pr := parse_keyrec now cols p0.work none
    let p1 := { p0 with work := pr.1 }
    match pr.2 with
    | none => (eofTerminal p1, .ok)
    | some kr => (eofTerminal (saveKeyrec p1 kr), .ok)

/-- Feed a sequence of lines, stopping at the first handler error (the
dirmngr driver stops the callback loop on error). -/
def slhRun (now cols : Nat) (p : SLHParm) : List (Option (List Char)) → SLHParm × SlhResult
  | [] => (p, .ok)
  | l :: ls =>
    let pr := search_line_handler now cols p l
    if pr.2 = .ok then slhRun now cols pr.1 ls else pr

lemma splitColon_no_sep (xs : List Char) (h : ':' ∉ xs) : splitColon xs = [xs] := by
  induction xs with
  | nil => rfl
  | cons c cs ih =>
    have hc : ¬(c = ':') := fun hh => h (by simp [hh])
    have ih2 := ih (fun hh => h (by simp [hh]))
    rw [splitColon, splitBy, if_neg (by simpa using hc)]
    rw [splitColon] at ih2
    rw [ih2]

lemma splitColon_append_sep (xs rest : List Char) (h : ':' ∉ xs) :
    splitColon (xs ++ ':' :: rest) = xs :: splitColon rest := by
  induction xs with
  | nil =>
    rw [List.nil_append, splitColon, splitBy, if_pos (show decide (':' = ':') = true by decide)]
    rfl
  | cons c cs ih =>
    have hc : ¬(c = ':') := fun hh => h (by simp [hh])
    have ih2 := ih (fun hh => h (by simp [hh]))
    rw [List.cons_append, splitColon, splitBy, if_neg (by simpa using hc)]
    rw [splitColon] at ih2
    rw [ih2]

/-- C7: on a first-line `info:<vs>:<cs>:` response, a declared numeric
version other than 1 fails the search with `UnsupportedProtocol` leaving
the state untouched (no record parsed); otherwise the declared count is
processed: 0 marks not-found, a negative count is replaced by the guess 10
with the count untrustworthy, and a positive count is kept and trusted. -/
theorem info_first_line (now cols : Nat) (vs cs : List Char)
    (hv : ':' ∉ vs) (hc : ':' ∉ cs) :
    (∀ v : Int, sscanf_int vs = some v → v ≠ 1 →
      search_line_handler now cols initParm
          (some ('i' :: 'n' :: 'f' :: 'o' :: ':' :: (vs ++ ':' :: (cs ++ [':'])))) =
        (initParm, .unsupported)) ∧
    ((sscanf_int vs = none ∨ sscanf_int vs = some 1) →
      ∃ p1, search_line_handler now cols initParm
          (some ('i' :: 'n' :: 'f' :: 'o' :: ':' :: (vs ++ ':' :: (cs ++ [':'])))) =
          (p1, .ok) ∧
        p1.work = none ∧ p1.nkeys = 0 ∧
        (sscanf_int cs = some 0 → p1.not_found = true) ∧
        (∀ c : Int, sscanf_int cs = some c → c < 0 →
          p1.count = 10 ∧ p1.validcount = false) ∧
        (∀ c : Int, sscanf_int cs = some c → 0 < c →
          p1.count = c ∧ p1.validcount = true)) := by
  have htoks : splitColon (vs ++ ':' :: (cs ++ [':'])) = [vs, cs, []] := by
    rw [splitColon_append_sep vs _ hv,
        show cs ++ [':'] = cs ++ ':' :: [] from rfl,
        splitColon_append_sep cs [] hc]
    rfl
  have hinfo : search_line_handler now cols initParm
      (some ('i' :: 'n' :: 'f' :: 'o' :: ':' :: (vs ++ ':' :: (cs ++ [':'])))) =
      slh_info initParm ('i' :: 'n' :: 'f' :: 'o' :: ':' :: (vs ++ ':' :: (cs ++ [':']))) := rfl
  constructor
  · intro v hsv hne
    rw [hinfo]
    unfold slh_info
    simp only [List.drop_succ_cons, List.drop_zero]
    rw [htoks]
    simp only [List.headD_cons, hsv]
    rw [if_pos hne]
  · intro hver
    have hv1 : (match sscanf_int vs with | some x => x | none => (1 : Int)) = 1 := by
      rcases hver with h | h <;> rw [h]
    rw [hinfo]
    unfold slh_info
    simp only [List.drop_succ_cons, List.drop_zero]
    rw [htoks]
    simp only [List.headD_cons, hv1, ne_eq, not_true_eq_false, if_false,
      List.getElem?_cons_succ, List.getElem?_cons_zero]
    unfold infoCount
    dsimp only
    cases hcs : sscanf_int cs with
    | none =>
      refine ⟨_, rfl, rfl, rfl, ?_, ?_, ?_⟩
      · intro h0; exact absurd h0 (by simp)
      · intro c h0 _; exact absurd h0 (by simp)
      · intro c h0 _; exact absurd h0 (by simp)
    | some c =>
      dsimp only
      by_cases hc0 : c = 0
      · subst hc0
        exact ⟨{ initParm with count := 0, not_found := true, any_lines := true },
          by decide, rfl, rfl, fun _ => rfl,
          fun c2 h2 hneg => absurd hneg (by injection h2 with h2; omega),
          fun c2 h2 hpos => absurd hpos (by injection h2 with h2; omega)⟩
      · by_cases hcneg : c < 0
        · refine ⟨{ initParm with count := 10, any_lines := true },
            by rw [if_neg hc0, if_pos hcneg], rfl, rfl, ?_, fun _ _ _ => ⟨rfl, rfl⟩, ?_⟩
          · intro h2; injection h2 with h2; omega
          · intro c2 h2 hpos; injection h2 with h2; omega
        · refine ⟨{ initParm with count := c, validcount := true, any_lines := true },
            by rw [if_neg hc0, if_neg hcneg], rfl, rfl, ?_, ?_, ?_⟩
          · intro h2; injection h2 with h2; omega
          · intro c2 h2 hneg; injection h2 with h2; omega
          · intro c2 h2 hpos
            injection h2 with h2
            exact ⟨by rw [h2], rfl⟩

/-- Witness for C7: `info:2:5:` fails with `UnsupportedProtocol` and an
untouched state; `info:1:5:` succeeds and trusts the count 5. -/
theorem info_first_line_witness :
    (search_line_handler 0 80 initParm (some "info:2:5:".data) =
      (initParm, .unsupported)) ∧
    (∃ p1, search_line_handler 0 80 initParm (some "info:1:5:".data) = (p1, .ok) ∧
      p1.work = none ∧ p1.nkeys = 0 ∧
      (sscanf_int "5".data = some 0 → p1.not_found = true) ∧
      (∀ c : Int, sscanf_int "5".data = some c → c < 0 →
        p1.count = 10 ∧ p1.validcount = false) ∧
      (∀ c : Int, sscanf_int "5".data = some c → 0 < c →
        p1.count = c ∧ p1.validcount = true)) :=
  ⟨(info_first_line 0 80 "2".data "5".data (by decide) (by decide)).1 2 (by decide) (by decide),
   (info_first_line 0 80 "1".data "5".data (by decide) (by decide)).2 (Or.inr (by decide))⟩

/-- C10: an `info:` first line whose version sub-field does not parse as
an integer behaves exactly like one declaring version 1: no
`UnsupportedProtocol` failure, the count sub-field processed as usual. -/
theorem info_unparsable_version (now cols : Nat) (vs cs : List Char)
    (hv : ':' ∉ vs) (hns : sscanf_int vs = none) :
    search_line_handler now cols initParm
        (some ('i' :: 'n' :: 'f' :: 'o' :: ':' :: (vs ++ ':' :: cs))) =
      search_line_handler now cols initParm
        (some ('i' :: 'n' :: 'f' :: 'o' :: ':' :: ('1' :: ':' :: cs))) ∧
    (search_line_handler now cols initParm
        (some ('i' :: 'n' :: 'f' :: 'o' :: ':' :: (vs ++ ':' :: cs)))).2 = SlhResult.ok := by
  have heq : search_line_handler now cols initParm
      (some ('i' :: 'n' :: 'f' :: 'o' :: ':' :: (vs ++ ':' :: cs))) =
      search_line_handler now cols initParm
        (some ('i' :: 'n' :: 'f' :: 'o' :: ':' :: ('1' :: ':' :: cs))) := by
    show slh_info initParm ('i' :: 'n' :: 'f' :: 'o' :: ':' :: (vs ++ ':' :: cs)) =
      slh_info initParm ('i' :: 'n' :: 'f' :: 'o' :: ':' :: ('1' :: ':' :: cs))
    unfold slh_info
    simp only [List.drop_succ_cons, List.drop_zero]
    rw [splitColon_append_sep vs cs hv,
        show splitColon ('1' :: ':' :: cs) = ['1'] :: splitColon cs from rfl]
    simp only [List.headD_cons, hns, show sscanf_int ['1'] = some 1 from rfl]
    simp only [ne_eq, not_true_eq_false, if_false, List.getElem?_cons_succ]
  refine ⟨heq, ?_⟩
  rw [heq]
  rfl

/-- Witness for C10: `info:abc:5:` is handled exactly like `info:1:5:` and
succeeds. -/
theorem info_unparsable_version_witness :
    search_line_handler 0 80 initParm (some "info:abc:5:".data) =
      search_line_handler 0 80 initParm (some "info:1:5:".data) ∧
    (search_line_handler 0 80 initParm (some "info:abc:5:".data)).2 = SlhResult.ok :=
  info_unparsable_version 0 80 "abc".data "5:".data (by decide) (by decide)

/-- C8 counterexample: after a first line `"x"` (which completes no
record), the `info:2:5:` line arriving *second* still receives the
version/count treatment and aborts with `UnsupportedProtocol`; had it been
treated as an ordinary record line (as it is once a line has completed
processing), the handler would have returned ok. -/
theorem late_info_line_cex :
    (slhRun 0 80 initParm [some "x".data, some "info:2:5:".data]).2 =
      SlhResult.unsupported ∧
    (search_line_handler 0 80
        { (slhRun 0 80 initParm [some "x".data]).1 with any_lines := true }
        (some "info:2:5:".data)).2 = SlhResult.ok := by
  constructor <;> rfl

/-- One step of the specification-level window automaton of the amended
C8: the special-treatment window for `info:` lines stays open until an
`info:` line is specially processed or a line completes a key record;
alongside it tracks the parser state. -/
def windowStep (now cols : Nat) (s : Bool × Option Keyrec) (l : List Char) :
    Bool × Option Keyrec :=
  if s.1 && is_info_line l then (false, s.2)
  else
    let pr := parse_keyrec now cols s.2 (some l)
    (s.1 && pr.2.isNone, pr.1)

/-- Window state after a stream of lines. -/
def windowOpen (now cols : Nat) (ls : List (List Char)) : Bool × Option Keyrec :=
  List.foldl (windowStep now cols) (true, none) ls

/-- The invariant tying the handler state to the window automaton. -/
def slhWindowInv (p : SLHParm) (s : Bool × Option Keyrec) : Prop :=
  p.any_lines = !s.1 ∧ p.work = s.2 ∧ p.eof_seen = false

lemma infoCount_work (p : SLHParm) (t : Option (List Char)) :
    (infoCount p t).work = p.work := by
  unfold infoCount
  repeat' split
  all_goals rfl

lemma infoCount_eof (p : SLHParm) (t : Option (List Char)) :
    (infoCount p t).eof_seen = p.eof_seen := by
  unfold infoCount
  repeat' split
  all_goals rfl

lemma saveKeyrec_fields (p : SLHParm) (k : Keyrec) :
    (saveKeyrec p k).work = p.work ∧ (saveKeyrec p k).eof_seen = p.eof_seen ∧
      (saveKeyrec p k).any_lines = true := by
  unfold saveKeyrec
  repeat' split
  all_goals exact ⟨rfl, rfl, rfl⟩

/-- Equation for one runner step. -/
lemma slhRun_cons (now cols : Nat) (p : SLHParm) (x : Option (List Char))
    (xs : List (Option (List Char))) :
    slhRun now cols p (x :: xs) =
      if (search_line_handler now cols p x).2 = .ok then
        slhRun now cols (search_line_handler now cols p x).1 xs
      else search_line_handler now cols p x := rfl

lemma slh_step_window (now cols : Nat) (p : SLHParm) (s : Bool × Option Keyrec)
    (l : List Char) (hinv : slhWindowInv p s)
    (hok : (search_line_handler now cols p (some l)).2 = .ok) :
    slhWindowInv (search_line_handler now cols p (some l)).1 (windowStep now cols s l) := by
  obtain ⟨h1, h2, h3⟩ := hinv
  have hline : search_line_handler now cols p (some l) =
      (if !p.any_lines && is_info_line l then slh_info p l
       else
        match (parse_keyrec now cols p.work (some l)).2 with
        | none => ({ p with work := (parse_keyrec now cols p.work (some l)).1 }, .ok)
        | some kr =>
          (saveKeyrec { p with work := (parse_keyrec now cols p.work (some l)).1 } kr, .ok)) := by
    unfold search_line_handler
    rw [h3]
    rfl
  have hwstep : windowStep now cols s l =
      (if s.1 && is_info_line l then (false, s.2)
       else (s.1 && (parse_keyrec now cols s.2 (some l)).2.isNone,
             (parse_keyrec now cols s.2 (some l)).1)) := by
    unfold windowStep
    rfl
  by_cases hcond : (s.1 && is_info_line l) = true
  · have hcond2 : (!p.any_lines && is_info_line l) = true := by
      rw [h1, Bool.not_not]
      exact hcond
    rw [hline, hcond2, if_pos rfl] at hok ⊢
    rw [hwstep, if_pos hcond]
    unfold slh_info at hok ⊢
    by_cases hv : (match sscanf_int ((splitColon (l.drop 5)).headD []) with
        | some x => x
        | none => (1 : Int)) ≠ 1
    · rw [if_pos hv] at hok
      cases hok
    · rw [if_neg hv]
      refine ⟨rfl, ?_, ?_⟩
      · show (infoCount p (splitColon (l.drop 5))[1]?).work = s.2
        rw [infoCount_work, h2]
      · show (infoCount p (splitColon (l.drop 5))[1]?).eof_seen = false
        rw [infoCount_eof, h3]
  · have hcond2 : ¬((!p.any_lines && is_info_line l) = true) := by
      rw [h1, Bool.not_not]
      exact hcond
    rw [hline, if_neg hcond2]
    rw [hwstep, if_neg hcond, ← h2]
    cases hpr : (parse_keyrec now cols p.work (some l)).2 with
    | none =>
      refine ⟨?_, rfl, h3⟩
      show p.any_lines = !(s.1 && (none : Option Keyrec).isNone)
      simp only [Option.isNone_none, Bool.and_true]
      exact h1
    | some kr =>
      obtain ⟨hw, he, ha⟩ :=
        saveKeyrec_fields { p with work := (parse_keyrec now cols p.work (some l)).1 } kr
      refine ⟨?_, ?_, ?_⟩
      · show (saveKeyrec _ kr).any_lines = !(s.1 && (some kr : Option Keyrec).isNone)
        rw [ha]
        simp
      · show (saveKeyrec _ kr).work = (parse_keyrec now cols p.work (some l)).1
        rw [hw]
      · show (saveKeyrec _ kr).eof_seen = false
        rw [he]
        exact h3

lemma slhRun_window (now cols : Nat) :
    ∀ (ls : List (List Char)) (p : SLHParm) (s : Bool × Option Keyrec),
      slhWindowInv p s → (slhRun now cols p (ls.map some)).2 = .ok →
      slhWindowInv (slhRun now cols p (ls.map some)).1
        (List.foldl (windowStep now cols) s ls) := by
  intro ls
  induction ls with
  | nil => intro p s h _; exact h
  | cons l ls ih =>
    intro p s hinv hok
    rw [List.map_cons, slhRun_cons] at hok ⊢
    by_cases h1 : (search_line_handler now cols p (some l)).2 = .ok
    · rw [if_pos h1] at hok ⊢
      rw [List.foldl_cons]
      exact ih _ _ (slh_step_window now cols p s l hinv h1) hok
    · rw [if_neg h1] at hok
      exact absurd hok h1

lemma slhRun_append (now cols : Nat) (p : SLHParm) (xs ys : List (Option (List Char))) :
    slhRun now cols p (xs ++ ys) =
      if (slhRun now cols p xs).2 = .ok then
        slhRun now cols (slhRun now cols p xs).1 ys
      else slhRun now cols p xs := by
  induction xs generalizing p with
  | nil => simp [slhRun]
  | cons x xs ih =>
    rw [List.cons_append, slhRun_cons, slhRun_cons]
    by_cases h1 : (search_line_handler now cols p x).2 = .ok
    · rw [if_pos h1, if_pos h1, ih]
    · rw [if_neg h1, if_neg h1, if_neg h1]

lemma slh_record_path_ok (now cols : Nat) (p : SLHParm) (l : List Char)
    (hany : p.any_lines = true) (heof : p.eof_seen = false) :
    (search_line_handler now cols p (some l)).2 = SlhResult.ok := by
  have hline : search_line_handler now cols p (some l) =
      (match (parse_keyrec now cols p.work (some l)).2 with
       | none => ({ p with work := (parse_keyrec now cols p.work (some l)).1 }, .ok)
       | some kr =>
         (saveKeyrec { p with work := (parse_keyrec now cols p.work (some l)).1 } kr, .ok)) := by
    unfold search_line_handler
    rw [heof, hany]
    rfl
  rw [hline]
  cases (parse_keyrec now cols p.work (some l)).2 <;> rfl

lemma slh_info25 (now cols : Nat) (p : SLHParm)
    (hany : p.any_lines = false) (heof : p.eof_seen = false) :
    search_line_handler now cols p (some "info:2:5:".data) = (p, SlhResult.unsupported) := by
  unfold search_line_handler
  rw [heof, hany]
  rfl

/-- C8 as amended: an `info:` line gets the version/count treatment
exactly while the window is still open — that is, until an earlier `info:`
line has been specially processed or an earlier line has completed a key
record; a line that merely starts or extends a record does not close the
window, so an `info:` line later than first can still trigger the
version/count handling.  Observed through the `info:2:5:` probe, whose
special treatment is the `UnsupportedProtocol` abort. -/
theorem late_info_line_amended (now cols : Nat) (ls : List (List Char))
    (hok : (slhRun now cols initParm (ls.map some)).2 = .ok) :
    ((slhRun now cols initParm (ls.map some ++ [some "info:2:5:".data])).2 =
        SlhResult.unsupported) ↔
      (windowOpen now cols ls).1 = true := by
  have hinv := slhRun_window now cols ls initParm (true, none) ⟨rfl, rfl, rfl⟩ hok
  obtain ⟨h1, h2, h3⟩ := hinv
  rw [slhRun_append, if_pos hok]
  rw [slhRun_cons]
  have hwo : windowOpen now cols ls = List.foldl (windowStep now cols) (true, none) ls := rfl
  rw [← hwo] at h1
  cases hw : (windowOpen now cols ls).1 with
  | false =>
    rw [hw] at h1
    simp only [Bool.not_false] at h1
    have hstep := slh_record_path_ok now cols _ "info:2:5:".data h1 h3
    rw [if_pos hstep]
    simp only [Bool.false_eq_true, iff_false]
    intro hcontra
    have : (slhRun now cols (search_line_handler now cols
        (slhRun now cols initParm (ls.map some)).1 (some "info:2:5:".data)).1 []).2 =
        SlhResult.ok := rfl
    rw [hcontra] at this
    cases this
  | true =>
    rw [hw] at h1
    simp only [Bool.not_true] at h1
    have hstep := slh_info25 now cols _ h1 h3
    rw [hstep]
    simp

/-- Witness for the amended C8 at the concrete stream `["x"]`. -/
theorem late_info_line_amended_witness :
    ((slhRun 0 80 initParm (["x".data].map some ++ [some "info:2:5:".data])).2 =
        SlhResult.unsupported) ↔
      (windowOpen 0 80 ["x".data]).1 = true :=
  late_info_line_amended 0 80 ["x".data] (by decide)

/-! ## InteractiveSelector: `show_prompt` -/

/-- Outcome of one round of the interactive prompt (`show_prompt`,
keyserver.cpp lines 453-516): the user quit; too many selections (warn and
re-prompt, keeping none); zero valid tokens (re-prompt); no selection at
all (the prompt returns 0 without invoking retrieval); or retrieval
invoked on the selected 1-based records. -/
inductive PromptRound where
  | canceled
  | tooMany
  | again
  | noSelection
  | selected (sel : List Nat)
deriving DecidableEq, Repr

/-- The token loop of `show_prompt` (keyserver.cpp lines 487-494): collect
tokens that parse into `[1, numdesc]`; when a 51st valid token is found the
whole input is discarded (`none`, the "Too many keys selected" path). -/
def selLoop (numdesc : Nat) : List (List Char) → List Nat → Option (List Nat)
  | [], acc => some acc
  | t :: rest, acc =>
    if 1 ≤ atoiChars t ∧ atoiChars t ≤ (numdesc : Int) then
      if 50 ≤ acc.length then none
      else selLoop numdesc rest (acc ++ [(atoiChars t).toNat])
    else selLoop numdesc rest acc

/-- One round of `show_prompt` on the entered line `answer` with `numdesc`
accumulated records: control-D or a leading q/Q cancels; otherwise the
token loop runs only when `atoi` of the whole input lies in
`[1, numdesc]` — if it does not, the prompt returns without selecting and
without re-prompting. -/
def show_prompt (answer : List Char) (numdesc : Nat) : PromptRound :=
  match answer with
  | [] => .noSelection
  | c :: _ =>
    if c = Char.ofNat 4 || c = 'q' || c = 'Q' then .canceled
    else if 1 ≤ atoiChars answer ∧ atoiChars answer ≤ (numdesc : Int) then
      match selLoop numdesc (splitBy (fun ch => ch = ' ' || ch = ',') answer) [] with
      | none => .tooMany
      | some [] => .again
      | some sel => .selected sel
    else .noSelection

/-- The selector as the claim words it (for non-quit input): split on
spaces and commas, keep exactly the tokens that parse into `[1, numdesc]`,
re-prompt when none survive, warn and re-prompt keeping nothing when more
than 50 survive, and otherwise select exactly the surviving records. -/
def claimSelect (answer : List Char) (numdesc : Nat) : PromptRound :=
  let sel := ((splitBy (fun ch => ch = ' ' || ch = ',') answer).filter
      (fun t => decide (1 ≤ atoiChars t ∧ atoiChars t ≤ (numdesc : Int)))).map
      (fun t => (atoiChars t).toNat)
  if sel = [] then .again
  else if 50 < sel.length then .tooMany
  else .selected sel

/-- C9 counterexample: on input `"99,1"` with 3 records, the claim says
record 1 is selected (99 dropped silently); the code's `atoi` gate on the
whole input (99 ∉ [1,3]) skips the token loop entirely and returns without
selecting and without re-prompting. -/
theorem selector_gate_cex :
    show_prompt "99,1".data 3 = PromptRound.noSelection ∧
    claimSelect "99,1".data 3 = PromptRound.selected [1] := by
  constructor <;> rfl

/-- The selector as amended: identical to the claim's reading, except that
the splitting/selection applies only when the integer prefix of the whole
input (C `atoi`) lies in `[1, numdesc]`; otherwise the prompt returns with
no selection and no re-prompt. -/
def show_promptAmended (answer : List Char) (numdesc : Nat) : PromptRound :=
  match answer with
  | [] => .noSelection
  | c :: _ =>
    if c = Char.ofNat 4 || c = 'q' || c = 'Q' then .canceled
    else if 1 ≤ atoiChars answer ∧ atoiChars answer ≤ (numdesc : Int) then
      claimSelect answer numdesc
    else .noSelection

lemma selLoop_eq_filter (numdesc : Nat) :
    ∀ (ts : List (List Char)) (acc : List Nat), acc.length ≤ 50 →
      selLoop numdesc ts acc =
        if 50 < acc.length + (ts.filter
            (fun t => decide (1 ≤ atoiChars t ∧ atoiChars t ≤ (numdesc : Int)))).length
        then none
        else some (acc ++ (ts.filter
            (fun t => decide (1 ≤ atoiChars t ∧ atoiChars t ≤ (numdesc : Int)))).map
            (fun t => (atoiChars t).toNat)) := by
  intro ts
  induction ts with
  | nil =>
    intro acc hacc
    rw [selLoop]
    simp only [List.filter_nil, List.length_nil, Nat.add_zero, List.map_nil, List.append_nil]
    rw [if_neg (by omega)]
  | cons t ts ih =>
    intro acc hacc
    rw [selLoop]
    by_cases hvalid : 1 ≤ atoiChars t ∧ atoiChars t ≤ (numdesc : Int)
    · rw [if_pos hvalid, List.filter_cons_of_pos (by simpa using hvalid)]
      by_cases hfull : 50 ≤ acc.length
      · rw [if_pos hfull]
        have hcond : 50 < acc.length + ((t :: ts.filter
            (fun t => decide (1 ≤ atoiChars t ∧ atoiChars t ≤ (numdesc : Int)))).length) := by
          simp only [List.length_cons]
          omega
        rw [if_pos hcond]
      · rw [if_neg hfull,
          ih (acc ++ [(atoiChars t).toNat])
            (by simp only [List.length_append, List.length_cons, List.length_nil]; omega)]
        have hlen : (acc ++ [(atoiChars t).toNat]).length = acc.length + 1 := by simp
        by_cases hov : 50 < acc.length + ((t :: ts.filter
            (fun t => decide (1 ≤ atoiChars t ∧ atoiChars t ≤ (numdesc : Int)))).length)
        · have h1 : 50 < (acc ++ [(atoiChars t).toNat]).length + (ts.filter
              (fun t => decide (1 ≤ atoiChars t ∧ atoiChars t ≤ (numdesc : Int)))).length := by
            simp only [List.length_cons] at hov
            rw [hlen]
            omega
          rw [if_pos h1, if_pos hov]
        · have h1 : ¬(50 < (acc ++ [(atoiChars t).toNat]).length + (ts.filter
              (fun t => decide (1 ≤ atoiChars t ∧ atoiChars t ≤ (numdesc : Int)))).length) := by
            simp only [List.length_cons] at hov
            rw [hlen]
            omega
          rw [if_neg h1, if_neg hov]
          simp [List.append_assoc]
    · rw [if_neg hvalid, List.filter_cons_of_neg (by simpa using hvalid), ih acc hacc]

/-- C9 as amended: the prompt round agrees with the amended selector on
every input line and record count. -/
theorem selector_amended (answer : List Char) (numdesc : Nat) :
    show_prompt answer numdesc = show_promptAmended answer numdesc := by
  unfold show_prompt show_promptAmended
  cases answer with
  | nil => rfl
  | cons c rest =>
    dsimp only
    by_cases hq : (c = Char.ofNat 4 || c = 'q' || c = 'Q') = true
    · rw [if_pos hq, if_pos hq]
    · rw [if_neg hq, if_neg hq]
      by_cases hgate : 1 ≤ atoiChars (c :: rest) ∧ atoiChars (c :: rest) ≤ (numdesc : Int)
      · rw [if_pos hgate, if_pos hgate,
          selLoop_eq_filter numdesc _ [] (by simp)]
        unfold claimSelect
        simp only [List.length_nil, Nat.zero_add, List.nil_append]
        by_cases hov : 50 < ((splitBy (fun ch => ch = ' ' || ch = ',') (c :: rest)).filter
            (fun t => decide (1 ≤ atoiChars t ∧ atoiChars t ≤ (numdesc : Int)))).length
        · rw [if_pos hov]
          have hne : ¬(((splitBy (fun ch => ch = ' ' || ch = ',') (c :: rest)).filter
              (fun t => decide (1 ≤ atoiChars t ∧ atoiChars t ≤ (numdesc : Int)))).map
              (fun t => (atoiChars t).toNat) = []) := by
            intro hempty
            rw [List.map_eq_nil_iff] at hempty
            rw [hempty] at hov
            simp at hov
          rw [if_neg hne, if_pos (by rw [List.length_map]; exact hov)]
        · rw [if_neg hov]
          cases hmap : ((splitBy (fun ch => ch = ' ' || ch = ',') (c :: rest)).filter
              (fun t => decide (1 ≤ atoiChars t ∧ atoiChars t ≤ (numdesc : Int)))).map
              (fun t => (atoiChars t).toNat) with
          | nil => rfl
          | cons a as =>
            have hne : ¬(a :: as = []) := by simp
            have hlen : ¬(50 < (a :: as).length) := by
              rw [← hmap, List.length_map]
              exact hov
            rw [if_neg hne, if_neg hlen]
      · rw [if_neg hgate, if_neg hgate]

end NeopgKeyserver